import Mathlib

/-!
Verification development for the `universe` durable key-value store:
a shallow embedding of the WAL-backed `Store` (buffered WAL variant:
`internal/store/wal.go` together with the `Store` orchestration layer),
with theorems about frame encoding/decoding, corruption detection,
recovery, and the public `Set`/`Get`/`Delete`/`Close` contract.

Bytes are modelled as `Nat`s in a `List Nat`; where the code depends on
32-bit arithmetic (the frame's length field, CRC32) the reduction
modulo `2 ^ 32` is explicit.
-/

namespace Universe

/-- The two mutation kinds recorded in the WAL
(`OperationSet` / `OperationDelete` in `wal.go`). -/
inductive OperationType where
  | set
  | delete
deriving DecidableEq, Repr

/-- One WAL record: `WALEntry{Type, Key, Value}` from `wal.go`.
`value` is a byte sequence, modelled as `List Nat`; a Delete entry
carries the empty value (Go's `nil` slice). -/
structure WALEntry where
  type : OperationType
  key : String
  value : List Nat
deriving DecidableEq, Repr

/-- `binary.BigEndian.PutUint32`: the four big-endian bytes of
`n % 2 ^ 32`. -/
def putUint32 (n : Nat) : List Nat :=
  [n % 4294967296 / 16777216, n % 16777216 / 65536, n % 65536 / 256, n % 256]

/-- `binary.BigEndian.Uint32` over a four-byte buffer
`[b0, b1, b2, b3]`. -/
def getUint32 (b0 b1 b2 b3 : Nat) : Nat :=
  ((b0 * 256 + b1) * 256 + b2) * 256 + b3

/-- One bit-level step of CRC32: shift right once, conditionally xor
the reflected IEEE polynomial `0xEDB88320`. -/
def crcStep (c : Nat) : Nat :=
  if c % 2 = 1 then (c / 2) ^^^ 3988292384 else c / 2

/-- Fold one byte into the running CRC32 state (8 bit-level steps),
as in the table-free formulation of `crc32.ChecksumIEEE`. -/
def crcByte (c b : Nat) : Nat :=
  crcStep (crcStep (crcStep (crcStep (crcStep (crcStep (crcStep (crcStep
    ((c ^^^ b % 256))))))))) % 4294967296

/-- `crc32.ChecksumIEEE`: CRC-32 (reflected IEEE polynomial) of a byte
sequence. The final `% 2 ^ 32` makes the 32-bit range explicit. -/
def checksumIEEE (bs : List Nat) : Nat :=
  ((bs.foldl crcByte 4294967295) ^^^ 4294967295) % 4294967296

/-- The checksum fits the frame's 32-bit checksum field. -/
theorem checksumIEEE_lt (bs : List Nat) : checksumIEEE bs < 4294967296 :=
  Nat.mod_lt _ (by omega)

/-- Kind tag used by the payload codec for an operation type. -/
def kindTag : OperationType → Nat
  | .set => 0
  | .delete => 1

/-- Inverse of `kindTag`. -/
def kindOfTag (n : Nat) : Option OperationType :=
  if n = 0 then some .set else if n = 1 then some .delete else none

/-- Decode one character code; fails unless the code is a valid
Unicode scalar value. -/
def charOfCode (n : Nat) : Option Char :=
  if n.isValidChar then some (Char.ofNat n) else none

/-- Decode a list of character codes into characters. -/
def charsOfCodes : List Nat → Option (List Char)
  | [] => some []
  | n :: ns => do
    let c ← charOfCode n
    let cs ← charsOfCodes ns
    pure (c :: cs)

/-- Executable stand-in for Go's `gob` serialization of a `WALEntry`
(the `gob` encoder itself is Go standard-library code, outside this
repository): a kind tag, the key length, the key's character codes,
then the value bytes running to the end of the payload. What the
development relies on — and all that `wal.go` relies on from `gob` —
is that the payload is non-empty, self-contained, and decodes back to
the entry, while unparseable payloads are rejected. -/
def encodePayload (e : WALEntry) : List Nat :=
  kindTag e.type :: e.key.length :: (e.key.data.map Char.toNat ++ e.value)

/-- Executable stand-in for Go's `gob` deserialization of a `WALEntry`:
inverse of `encodePayload`, failing on any payload it cannot parse
(unknown kind tag, truncated key, invalid character code). -/
def decodePayload : List Nat → Option WALEntry
  | [] => none
  | [_] => none
  | kb :: kl :: rest =>
    if rest.length < kl then none
    else do
      let t ← kindOfTag kb
      let cs ← charsOfCodes (rest.take kl)
      pure ⟨t, ⟨cs⟩, rest.drop kl⟩

theorem charOfCode_toNat (c : Char) : charOfCode c.toNat = some c := by
  have hv : c.toNat.isValidChar := c.valid
  rw [charOfCode, if_pos hv, Char.ofNat_toNat]

theorem charsOfCodes_map_toNat (cs : List Char) :
    charsOfCodes (cs.map Char.toNat) = some cs := by
  induction cs with
  | nil => rfl
  | cons c cs ih => simp [charsOfCodes, charOfCode_toNat, ih]

/-- The payload codec round-trips: decoding an encoded entry yields
the entry back. -/
theorem decodePayload_encodePayload (e : WALEntry) :
    decodePayload (encodePayload e) = some e := by
  obtain ⟨t, ⟨cs⟩, v⟩ := e
  have hlen : (cs.map Char.toNat).length = cs.length := by simp
  simp only [encodePayload, decodePayload, String.length_mk, String.data]
  rw [← hlen, List.take_left, List.drop_left]
  rw [if_neg (by simp)]
  cases t <;> simp [kindOfTag, kindTag, charsOfCodes_map_toNat]

/-- Outcome of the `ReadAll` scan when it fails. `corrupt` stands for an
error satisfying Go's `errors.Is(err, ErrCorruptWAL)` — the truncation,
zero-length and checksum branches of `wal.go` (the checksum branch wraps
`ErrCorruptWAL` via `%w`). `decodeFail` stands for the
`store: decode wal entry: ...` error, which wraps only the gob decoder's
error and is therefore *not* an `ErrCorruptWAL` error. -/
inductive WalReadError where
  | corrupt
  | decodeFail
deriving DecidableEq, Repr

/-- Equality of `Except` results is decidable (used to evaluate scan
results on concrete inputs). -/
instance {ε α : Type} [DecidableEq ε] [DecidableEq α] :
    DecidableEq (Except ε α)
  | .ok a, .ok b =>
    if h : a = b then .isTrue (by rw [h])
    else .isFalse (fun hc => h (Except.ok.inj hc))
  | .error a, .error b =>
    if h : a = b then .isTrue (by rw [h])
    else .isFalse (fun hc => h (Except.error.inj hc))
  | .ok _, .error _ => .isFalse (fun hc => Except.noConfusion hc)
  | .error _, .ok _ => .isFalse (fun hc => Except.noConfusion hc)

/-- The bytes `flushBuffer` writes for one entry:
`[4-byte length][4-byte checksum][payload]`, the length being
`uint32(len(data))` and the checksum `crc32.ChecksumIEEE(data)`. -/
def encodeFrame (e : WALEntry) : List Nat :=
  putUint32 (encodePayload e).length ++
    putUint32 (checksumIEEE (encodePayload e)) ++ encodePayload e

/-- The bytes `flushBuffer` writes for a batch of entries, in order. -/
def encodeFrames : List WALEntry → List Nat
  | [] => []
  | e :: es => encodeFrame e ++ encodeFrames es

/-- The scan loop of `WAL.ReadAll` (buffered variant, `wal.go`):
read a 4-byte length (clean EOF before it ends the scan; a partial read
is corruption), reject a zero length, read a 4-byte checksum (EOF is
corruption), read `length` payload bytes (EOF is corruption), verify the
CRC32, decode the payload, and continue with the remaining bytes.
`fuel` only bounds the number of loop iterations so the recursion is
structural; `readFrames` supplies enough fuel for it never to run out
(each iteration consumes at least nine bytes), as
`readFramesAux_congr` proves. -/
def readFramesAux : Nat → List Nat → Except WalReadError (List WALEntry)
  | _, [] => .ok []
  | 0, _ => .error .corrupt
  | fuel + 1, b0 :: b1 :: b2 :: b3 :: rest1 =>
    if getUint32 b0 b1 b2 b3 = 0 then .error .corrupt
    else
      match rest1 with
      | c0 :: c1 :: c2 :: c3 :: rest2 =>
        if rest2.length < getUint32 b0 b1 b2 b3 then .error .corrupt
        else if checksumIEEE (rest2.take (getUint32 b0 b1 b2 b3)) ≠
            getUint32 c0 c1 c2 c3 then .error .corrupt
        else
          match decodePayload (rest2.take (getUint32 b0 b1 b2 b3)) with
          | none => .error .decodeFail
          | some e =>
            match readFramesAux fuel (rest2.drop (getUint32 b0 b1 b2 b3)) with
            | .ok es => .ok (e :: es)
            | .error er => .error er
      | _ => .error .corrupt
  | _ + 1, _ => .error .corrupt

/-- The full `WAL.ReadAll` scan over a byte sequence. -/
def readFrames (bs : List Nat) : Except WalReadError (List WALEntry) :=
  readFramesAux bs.length bs

/-- Unfolding of one scan iteration on a byte sequence that has both
header fields. -/
theorem readFramesAux_cons8 (f b0 b1 b2 b3 c0 c1 c2 c3 : Nat)
    (rest2 : List Nat) :
    readFramesAux (f + 1) (b0 :: b1 :: b2 :: b3 :: c0 :: c1 :: c2 :: c3 :: rest2) =
      (if getUint32 b0 b1 b2 b3 = 0 then .error .corrupt
       else if rest2.length < getUint32 b0 b1 b2 b3 then .error .corrupt
       else if checksumIEEE (rest2.take (getUint32 b0 b1 b2 b3)) ≠
           getUint32 c0 c1 c2 c3 then .error .corrupt
       else
         match decodePayload (rest2.take (getUint32 b0 b1 b2 b3)) with
         | none => .error .decodeFail
         | some e =>
           match readFramesAux f (rest2.drop (getUint32 b0 b1 b2 b3)) with
           | .ok es => .ok (e :: es)
           | .error er => .error er) := rfl

/-- With fuel at least the byte count, the scan result does not depend
on the fuel: every iteration consumes at least nine bytes but only one
unit of fuel. -/
theorem readFramesAux_congr : ∀ (f g : Nat) (bs : List Nat),
    bs.length ≤ f → bs.length ≤ g → readFramesAux f bs = readFramesAux g bs := by
  intro f
  induction f with
  | zero =>
    intro g bs hf _
    have hb : bs = [] := List.eq_nil_of_length_eq_zero (by omega)
    subst hb
    cases g <;> rfl
  | succ f ih =>
    intro g bs hf hg
    rcases g with _ | g
    · have hb : bs = [] := List.eq_nil_of_length_eq_zero (by omega)
      subst hb
      rfl
    rcases bs with _ | ⟨b0, _ | ⟨b1, _ | ⟨b2, _ | ⟨b3, _ | ⟨c0, _ | ⟨c1, _ |
      ⟨c2, _ | ⟨c3, rest2⟩⟩⟩⟩⟩⟩⟩⟩
    any_goals rfl
    rw [readFramesAux_cons8, readFramesAux_cons8]
    simp only [List.length_cons] at hf hg
    rw [ih g (rest2.drop (getUint32 b0 b1 b2 b3))
      (by simp [List.length_drop]; omega) (by simp [List.length_drop]; omega)]

/-- An entry whose payload fits the frame's 32-bit length field (the
`uint32(len(data))` conversion in `flushBuffer` is lossless for it). -/
def WALEntry.wf (e : WALEntry) : Prop :=
  (encodePayload e).length < 4294967296

instance (e : WALEntry) : Decidable e.wf := by
  unfold WALEntry.wf; infer_instance

theorem encodePayload_length (e : WALEntry) :
    (encodePayload e).length = 2 + e.key.length + e.value.length := by
  obtain ⟨t, ⟨cs⟩, v⟩ := e
  simp [encodePayload, String.length_mk]
  omega

theorem getUint32_putUint32 (n : Nat) (h : n < 4294967296) :
    getUint32 (n % 4294967296 / 16777216) (n % 16777216 / 65536)
      (n % 65536 / 256) (n % 256) = n := by
  unfold getUint32
  omega

/-- Scanning one well-formed frame followed by arbitrary bytes yields
the frame's entry and continues with the remaining bytes. -/
theorem readFrames_encodeFrame (e : WALEntry) (hwf : e.wf) (rest : List Nat) :
    readFrames (encodeFrame e ++ rest) =
      (readFrames rest).map (fun es => e :: es) := by
  have hlen := encodePayload_length e
  have hpos : (encodePayload e).length ≠ 0 := by omega
  have hcl := checksumIEEE_lt (encodePayload e)
  unfold readFrames
  simp only [encodeFrame, putUint32, List.cons_append, List.nil_append,
    List.length_cons]
  rw [readFramesAux_cons8]
  rw [getUint32_putUint32 _ hwf, getUint32_putUint32 _ hcl]
  rw [if_neg hpos]
  rw [if_neg (by simp)]
  rw [List.take_left, List.drop_left]
  rw [if_neg (by simp)]
  rw [decodePayload_encodePayload]
  rw [readFramesAux_congr _ rest.length rest (by simp; omega) (le_refl _)]
  cases readFramesAux rest.length rest <;> simp [Except.map]

/-- Scanning a file that is a concatenation of well-formed frames
terminates cleanly at end-of-file and returns every entry in order. -/
theorem readFrames_encodeFrames (es : List WALEntry)
    (h : ∀ e ∈ es, e.wf) :
    readFrames (encodeFrames es) = .ok es := by
  induction es with
  | nil => rfl
  | cons e es ih =>
    rw [encodeFrames, readFrames_encodeFrame e (h e (by simp)),
      ih (fun x hx => h x (by simp [hx]))]
    rfl

/-- The in-memory index: the `CsMap[string, []byte]` of the Store,
modelled as a functional map from keys to byte sequences. -/
def Index : Type := String → Option (List Nat)

/-- The empty index (`csmap.Create`). -/
def Index.empty : Index := fun _ => none

/-- `CsMap.Store`: insert or overwrite a key. -/
def Index.insert (m : Index) (k : String) (v : List Nat) : Index :=
  fun q => if q = k then some v else m q

/-- `CsMap.Delete`: remove a key (whether it was present is read off
the map before erasing). -/
def Index.erase (m : Index) (k : String) : Index :=
  fun q => if q = k then none else m q

/-- `Store.applyEntry`: apply one replayed WAL entry to the index.
The Go switch also ignores unknown `OperationType` strings; the model's
`OperationType` has exactly the two kinds that exist in the source, so
no such case arises here. -/
def applyEntry (m : Index) (e : WALEntry) : Index :=
  match e.type with
  | .set => m.insert e.key e.value
  | .delete => m.erase e.key

/-- State of the buffered `WAL`: the in-memory `activeBuffer` (the
transient `pendingBuffer` exists only inside a flush cycle), the bytes
of the log file, and whether `file.Close` has run. The background
flusher is modelled synchronously: entries sit in `active` until a
flush cycle (triggered by `ReadAll` or `Close`) encodes them and
appends the frames to the file. -/
structure WALState where
  active : List WALEntry
  file : List Nat
  fileClosed : Bool
deriving DecidableEq, Repr

/-- `WAL.Append`: appends the entry to the active buffer and returns
`nil`. It checks nothing (in particular not whether the WAL was
closed) and touches no file. -/
def WALState.append (w : WALState) (e : WALEntry) : WALState :=
  { w with active := w.active ++ [e] }

/-- `swapBuffers` + `flushBuffer` as one synchronous step: encode every
buffered entry and append the frames to the file, then clear the
buffer. `flushBuffer` ignores the errors of `writer.Write`,
`writer.Flush` and `file.Sync`; once the file is closed the bytes no
longer reach it. -/
def WALState.flushBuffer (w : WALState) : WALState :=
  { active := [],
    file := if w.fileClosed then w.file else w.file ++ encodeFrames w.active,
    fileClosed := w.fileClosed }

/-- Errors surfaced by the Store API. `doubleClose` stands in for what
a second `Close()` does in the code (`close(doneChan)` on an already
closed channel panics); the model keeps the function total by returning
an error value there. -/
inductive StoreErr where
  | invalidKey
  | recoveryFailed (er : WalReadError)
  | doubleClose
deriving DecidableEq, Repr

/-- `WAL.Close`: stop the flusher, run a final flush cycle, close the
file. -/
def WALState.close (w : WALState) : Except StoreErr WALState :=
  if w.fileClosed then .error .doubleClose
  else .ok { w.flushBuffer with fileClosed := true }

/-- `WAL.ReadAll`: flush the buffer, then scan the file from the
start. -/
def WALState.readAll (w : WALState) :
    Except WalReadError (List WALEntry) × WALState :=
  (readFrames w.flushBuffer.file, w.flushBuffer)

/-- The Store: one WAL and one index. -/
structure StoreState where
  wal : WALState
  index : Index

/-- `Store.Get`: a pure index lookup; the returned bytes are a fresh
`bytes.Clone` copy (aliasing is modelled separately by the heap model
below). -/
def StoreState.get (s : StoreState) (k : String) : Option (List Nat) :=
  s.index k

/-- `Store.Set`: reject the empty key, then append a Set entry to the
WAL (`Append` cannot fail) and apply it to the index. -/
def StoreState.set (s : StoreState) (k : String) (v : List Nat) :
    Except StoreErr Unit × StoreState :=
  if k = "" then (.error .invalidKey, s)
  else (.ok (), { wal := s.wal.append ⟨.set, k, v⟩,
                  index := s.index.insert k v })

/-- `Store.Delete`: reject the empty key, then append a Delete entry to
the WAL (unconditionally), erase the key from the index and report
whether it was present. -/
def StoreState.delete (s : StoreState) (k : String) :
    Except StoreErr Bool × StoreState :=
  if k = "" then (.error .invalidKey, s)
  else (.ok ((s.index k).isSome),
    { wal := s.wal.append ⟨.delete, k, []⟩, index := s.index.erase k })

/-- `Store.Close` simply closes the WAL. -/
def StoreState.close (s : StoreState) : Except StoreErr StoreState :=
  (s.wal.close).map fun w => { s with wal := w }

/-- `store.New(path)` over a log file holding `file`: open the WAL and
replay it (`Store.Recover` = `ReadAll` + `applyEntry` in file order);
a replay error aborts construction. -/
def storeNew (file : List Nat) : Except StoreErr StoreState :=
  match readFrames file with
  | .error er => .error (.recoveryFailed er)
  | .ok es =>
    .ok { wal := ⟨[], file, false⟩, index := es.foldl applyEntry Index.empty }

/-- A store freshly created over an empty (or absent) log file. -/
def initStore : StoreState :=
  { wal := ⟨[], [], false⟩, index := Index.empty }

theorem storeNew_nil : storeNew [] = .ok initStore := rfl

/-- The spec's enumeration of structural corruption, written as a
boolean classifier of the byte sequence independent of the reader: the
scan hits corruption exactly on a truncated length field, a zero length
field, a declared frame that runs past end-of-file, or a CRC32
mismatch — while a payload that merely fails to parse stops the scan
*without* counting as structural corruption, and a clean end-of-file at
a frame boundary is no corruption at all. Fuel as in
`readFramesAux`. -/
def corruptScanAux : Nat → List Nat → Bool
  | _, [] => false
  | 0, _ => true
  | fuel + 1, b0 :: b1 :: b2 :: b3 :: rest1 =>
    if getUint32 b0 b1 b2 b3 = 0 then true
    else
      match rest1 with
      | c0 :: c1 :: c2 :: c3 :: rest2 =>
        if rest2.length < getUint32 b0 b1 b2 b3 then true
        else if checksumIEEE (rest2.take (getUint32 b0 b1 b2 b3)) ≠
            getUint32 c0 c1 c2 c3 then true
        else
          match decodePayload (rest2.take (getUint32 b0 b1 b2 b3)) with
          | none => false
          | some _ => corruptScanAux fuel (rest2.drop (getUint32 b0 b1 b2 b3))
      | _ => true
  | _ + 1, _ => true

/-- Structural corruption of a whole byte sequence. -/
def corruptScan (bs : List Nat) : Bool :=
  corruptScanAux bs.length bs

/-- Unfolding of one classifier step on a byte sequence that has both
header fields. -/
theorem corruptScanAux_cons8 (f b0 b1 b2 b3 c0 c1 c2 c3 : Nat)
    (rest2 : List Nat) :
    corruptScanAux (f + 1) (b0 :: b1 :: b2 :: b3 :: c0 :: c1 :: c2 :: c3 :: rest2) =
      (if getUint32 b0 b1 b2 b3 = 0 then true
       else if rest2.length < getUint32 b0 b1 b2 b3 then true
       else if checksumIEEE (rest2.take (getUint32 b0 b1 b2 b3)) ≠
           getUint32 c0 c1 c2 c3 then true
       else
         match decodePayload (rest2.take (getUint32 b0 b1 b2 b3)) with
         | none => false
         | some _ => corruptScanAux f (rest2.drop (getUint32 b0 b1 b2 b3))) := rfl

/-- For every fuel value the scan reports the `ErrCorruptWAL` error
exactly on the byte sequences the structural-corruption classifier
accepts. -/
theorem readFramesAux_corrupt_iff : ∀ (f : Nat) (bs : List Nat),
    readFramesAux f bs = .error .corrupt ↔ corruptScanAux f bs = true := by
  intro f
  induction f with
  | zero =>
    intro bs
    cases bs <;> simp [readFramesAux, corruptScanAux]
  | succ f ih =>
    intro bs
    rcases bs with _ | ⟨b0, _ | ⟨b1, _ | ⟨b2, _ | ⟨b3, _ | ⟨c0, _ | ⟨c1, _ |
      ⟨c2, _ | ⟨c3, rest2⟩⟩⟩⟩⟩⟩⟩⟩
    any_goals (solve | simp [readFramesAux, corruptScanAux, ite_self])
    rw [readFramesAux_cons8, corruptScanAux_cons8]
    by_cases h0 : getUint32 b0 b1 b2 b3 = 0
    · simp [h0]
    by_cases h1 : rest2.length < getUint32 b0 b1 b2 b3
    · simp [h0, h1]
    by_cases h2 : checksumIEEE (rest2.take (getUint32 b0 b1 b2 b3)) ≠
        getUint32 c0 c1 c2 c3
    · simp [h0, h1, h2]
    simp only [if_neg h0, if_neg h1, if_neg h2]
    cases hd : decodePayload (rest2.take (getUint32 b0 b1 b2 b3)) with
    | none => simp
    | some e =>
      cases hr : readFramesAux f (rest2.drop (getUint32 b0 b1 b2 b3)) with
      | ok es => simp [← ih, hr]
      | error er => cases er <;> simp [← ih, hr]

theorem Index.insert_self (m : Index) (k : String) (v : List Nat) :
    m.insert k v k = some v := if_pos rfl

theorem Index.erase_self (m : Index) (k : String) : m.erase k k = none :=
  if_pos rfl

theorem Index.insert_ne (m : Index) (k q : String) (v : List Nat)
    (h : q ≠ k) : m.insert k v q = m q := if_neg h

theorem Index.erase_ne (m : Index) (k q : String) (h : q ≠ k) :
    m.erase k q = m q := if_neg h

theorem Index.erase_absent (m : Index) (k : String) (h : m k = none) :
    m.erase k = m := by
  funext q
  by_cases hq : q = k
  · rw [hq, Index.erase_self, h]
  · exact Index.erase_ne m k q hq

/-- One call against the public Store API (the operations a caller can
issue while the store is open). -/
inductive StoreOp where
  | opSet (k : String) (v : List Nat)
  | opDelete (k : String)
  | opGet (k : String)
deriving DecidableEq, Repr

/-- State transition of one API call (`Get` leaves the state alone). -/
def runOp (s : StoreState) (o : StoreOp) : StoreState :=
  match o with
  | .opSet k v => (s.set k v).2
  | .opDelete k => (s.delete k).2
  | .opGet _ => s

/-- State after a sequence of API calls. -/
def runOps (s : StoreState) (os : List StoreOp) : StoreState :=
  os.foldl runOp s

/-- The WAL entries a sequence of calls appends (rejected empty-key
calls and `Get`s append nothing). -/
def entriesOf : List StoreOp → List WALEntry
  | [] => []
  | .opSet k v :: os =>
    (if k = "" then [] else [⟨.set, k, v⟩]) ++ entriesOf os
  | .opDelete k :: os =>
    (if k = "" then [] else [⟨.delete, k, []⟩]) ++ entriesOf os
  | .opGet _ :: os => entriesOf os

/-- An operation the engine accepts and whose log record fits the
32-bit frame length field: a non-empty key, and (for the size bound)
`2 + len(key) + len(value) < 2 ^ 32`. -/
def okOp : StoreOp → Bool
  | .opSet k v =>
    (k != "") && decide (2 + k.length + v.length < 4294967296)
  | .opDelete k => (k != "") && decide (2 + k.length < 4294967296)
  | .opGet _ => true

/-- Modelled from the spec's words for the refinement claim: applying
the same calls directly to an in-memory map with last-write-wins
semantics — no WAL, no validation beyond ignoring reads. -/
def lastWriteWins (m : Index) (o : StoreOp) : Index :=
  match o with
  | .opSet k v => m.insert k v
  | .opDelete k => m.erase k
  | .opGet _ => m

/-- The clean-shutdown cycle: run the calls on a store over an empty
log, `Close` it, and re-`Open` a store over the bytes the closed WAL
file now holds; the result is the rebuilt index. -/
def reopenAfter (os : List StoreOp) : Except StoreErr Index :=
  match (runOps initStore os).close with
  | .error er => .error er
  | .ok s1 =>
    match storeNew s1.wal.file with
    | .error er => .error er
    | .ok s2 => .ok s2.index

theorem runOps_cons (s : StoreState) (o : StoreOp) (os : List StoreOp) :
    runOps s (o :: os) = runOps (runOp s o) os := rfl

theorem runOps_active (os : List StoreOp) : ∀ (s : StoreState),
    (runOps s os).wal.active = s.wal.active ++ entriesOf os := by
  induction os with
  | nil => intro s; simp [runOps, entriesOf]
  | cons o os ih =>
    intro s
    rw [runOps_cons]
    cases o with
    | opSet k v =>
      by_cases hk : k = "" <;>
        simp [runOp, StoreState.set, hk, entriesOf, WALState.append, ih,
          List.append_assoc]
    | opDelete k =>
      by_cases hk : k = "" <;>
        simp [runOp, StoreState.delete, hk, entriesOf, WALState.append, ih,
          List.append_assoc]
    | opGet k => simp [runOp, entriesOf, ih]

theorem runOps_file (os : List StoreOp) : ∀ (s : StoreState),
    (runOps s os).wal.file = s.wal.file ∧
    (runOps s os).wal.fileClosed = s.wal.fileClosed := by
  induction os with
  | nil => intro s; simp [runOps]
  | cons o os ih =>
    intro s
    rw [runOps_cons]
    cases o with
    | opSet k v =>
      by_cases hk : k = "" <;>
        simp [runOp, StoreState.set, hk, WALState.append, ih]
    | opDelete k =>
      by_cases hk : k = "" <;>
        simp [runOp, StoreState.delete, hk, WALState.append, ih]
    | opGet k => simp [runOp, ih]

theorem entriesOf_wf (os : List StoreOp) (h : ∀ o ∈ os, okOp o = true) :
    ∀ e ∈ entriesOf os, e.wf := by
  induction os with
  | nil => simp [entriesOf]
  | cons o os ih =>
    have hos : ∀ x ∈ os, okOp x = true :=
      fun x hx => h x (List.mem_cons_of_mem _ hx)
    have ho : okOp o = true := h o (List.mem_cons_self _ _)
    cases o with
    | opSet k v =>
      have hk : k ≠ "" ∧ 2 + k.length + v.length < 4294967296 := by
        simpa [okOp] using ho
      intro e he
      rw [entriesOf, if_neg hk.1] at he
      rcases List.mem_append.1 he with h1 | h2
      · rw [List.mem_singleton.1 h1]
        unfold WALEntry.wf
        rw [encodePayload_length]
        exact hk.2
      · exact ih hos e h2
    | opDelete k =>
      have hk : k ≠ "" ∧ 2 + k.length < 4294967296 := by
        simpa [okOp] using ho
      intro e he
      rw [entriesOf, if_neg hk.1] at he
      rcases List.mem_append.1 he with h1 | h2
      · rw [List.mem_singleton.1 h1]
        unfold WALEntry.wf
        rw [encodePayload_length]
        simp
        omega
      · exact ih hos e h2
    | opGet k =>
      intro e he
      rw [entriesOf] at he
      exact ih hos e he

theorem foldl_applyEntry_entriesOf (os : List StoreOp)
    (h : ∀ o ∈ os, okOp o = true) : ∀ (m : Index),
    (entriesOf os).foldl applyEntry m = os.foldl lastWriteWins m := by
  induction os with
  | nil => intro m; rfl
  | cons o os ih =>
    have hos : ∀ x ∈ os, okOp x = true :=
      fun x hx => h x (List.mem_cons_of_mem _ hx)
    have ho : okOp o = true := h o (List.mem_cons_self _ _)
    intro m
    cases o with
    | opSet k v =>
      have hk : k ≠ "" := by
        intro he
        rw [he] at ho
        simp [okOp] at ho
      rw [entriesOf, if_neg hk]
      simp only [List.cons_append, List.nil_append, List.foldl_cons]
      rw [ih hos]
      rfl
    | opDelete k =>
      have hk : k ≠ "" := by
        intro he
        rw [he] at ho
        simp [okOp] at ho
      rw [entriesOf, if_neg hk]
      simp only [List.cons_append, List.nil_append, List.foldl_cons]
      rw [ih hos]
      rfl
    | opGet k =>
      rw [entriesOf]
      simp only [List.foldl_cons]
      rw [ih hos]
      rfl

/-- A heap of byte buffers. Go byte slices are references into backing
arrays; a pointer is an index into this heap. This refines the pure
model above exactly where the code calls `bytes.Clone`. -/
abbrev Heap : Type := List (List Nat)

/-- Allocate a fresh buffer holding `v` — what `bytes.Clone` does —
returning the new heap and the fresh pointer. -/
def Heap.alloc (h : Heap) (v : List Nat) : Heap × Nat :=
  (h ++ [v], h.length)

/-- The bytes a pointer refers to. -/
def Heap.read (h : Heap) (p : Nat) : List Nat :=
  h.getD p []

/-- Overwrite in place the buffer a pointer refers to (a caller
mutating a byte slice through its reference). -/
def Heap.write (h : Heap) (p : Nat) (v : List Nat) : Heap :=
  h.set p v

theorem Heap.read_alloc : ∀ (h : Heap) (v : List Nat),
    Heap.read (h ++ [v]) h.length = v := by
  intro h v
  induction h with
  | nil => rfl
  | cons b h ih => simp [Heap.read, List.getD] at ih ⊢

theorem Heap.read_append_lt : ∀ (h : Heap) (v : List Nat) (q : Nat),
    q < h.length → Heap.read (h ++ [v]) q = h.read q := by
  intro h v
  induction h with
  | nil => intro q hq; simp at hq
  | cons b h ih =>
    intro q hq
    cases q with
    | zero => rfl
    | succ q => simpa [Heap.read, List.getD] using ih q (by simpa using hq)

theorem Heap.read_write_ne : ∀ (h : Heap) (p q : Nat) (v : List Nat),
    p ≠ q → Heap.read (h.write p v) q = h.read q := by
  intro h
  induction h with
  | nil => intro p q v _; rfl
  | cons b h ih =>
    intro p q v hpq
    cases p with
    | zero =>
      cases q with
      | zero => exact absurd rfl hpq
      | succ q => rfl
    | succ p =>
      cases q with
      | zero => rfl
      | succ q =>
        simpa [Heap.read, Heap.write, List.getD] using
          ih p q v (fun he => hpq (by rw [he]))

theorem Heap.length_write (h : Heap) (p : Nat) (v : List Nat) :
    (h.write p v).length = h.length := List.length_set h p v

/-- The Store at buffer level: the index maps keys to pointers into
the heap. -/
structure HStore where
  heap : Heap
  index : String → Option Nat

/-- Every stored pointer refers to an allocated buffer. -/
def HStore.wf (s : HStore) : Prop :=
  ∀ (k : String) (q : Nat), s.index k = some q → q < s.heap.length

/-- `Store.Set` at buffer level: reject the empty key, clone the
caller's buffer (`valueCopy := bytes.Clone(value)`), and store the
pointer to the fresh clone in the index — never the caller's own
pointer. -/
def HStore.set (s : HStore) (k : String) (p : Nat) :
    Except StoreErr HStore :=
  if k = "" then .error .invalidKey
  else
    .ok { heap := (s.heap.alloc (s.heap.read p)).1,
          index := fun q =>
            if q = k then some (s.heap.alloc (s.heap.read p)).2
            else s.index q }

/-- `Store.Get` at buffer level: on a hit, clone the stored buffer
(`copyValue := bytes.Clone(value)`) and hand out a pointer to the
fresh clone — never the stored pointer itself. -/
def HStore.get (s : HStore) (k : String) : Option Nat × HStore :=
  match s.index k with
  | none => (none, s)
  | some q =>
    (some (s.heap.alloc (s.heap.read q)).2,
     { s with heap := (s.heap.alloc (s.heap.read q)).1 })

/-- C2: for every well-formed `WALEntry`, decoding the frame produced
by the frame encoder (4-byte big-endian length, 4-byte big-endian
CRC32 over the payload, then the payload) yields an entry equal to the
original: the scan of the encoded frame returns exactly that entry. -/
theorem frame_encode_decode_roundtrip (e : WALEntry) (h : e.wf) :
    readFrames (encodeFrame e) = .ok [e] := by
  have hr := readFrames_encodeFrames [e] (by simpa using h)
  rw [encodeFrames, encodeFrames, List.append_nil] at hr
  exact hr

theorem frame_encode_decode_roundtrip_witness :
    WALEntry.wf ⟨.set, "key", [104, 105]⟩ ∧
      readFrames (encodeFrame ⟨.set, "key", [104, 105]⟩) =
        .ok [⟨.set, "key", [104, 105]⟩] :=
  ⟨by decide, frame_encode_decode_roundtrip _ (by decide)⟩

/-- C3: `ReadAll` fails with the `CorruptWAL` error exactly when the
scan hits structural corruption — a truncated length field, a zero
length field, a declared frame that runs past end-of-file, or a CRC32
checksum mismatch — and a clean end-of-file reached exactly at a frame
boundary terminates the scan without error, returning all frames
read. -/
theorem readAll_corruption_characterization :
    (∀ bs : List Nat,
      readFrames bs = .error .corrupt ↔ corruptScan bs = true) ∧
    (∀ es : List WALEntry, (∀ e ∈ es, e.wf) →
      readFrames (encodeFrames es) = .ok es) :=
  ⟨fun bs => readFramesAux_corrupt_iff bs.length bs, readFrames_encodeFrames⟩

theorem readAll_corruption_characterization_witness :
    ((∀ e ∈ ([⟨.delete, "k", []⟩] : List WALEntry), e.wf) ∧
      readFrames (encodeFrames [⟨.delete, "k", []⟩]) =
        .ok [⟨.delete, "k", []⟩]) ∧
    (readFrames [0, 0, 0, 0] = .error .corrupt ↔
      corruptScan [0, 0, 0, 0] = true) :=
  ⟨⟨by decide, readAll_corruption_characterization.2 _ (by decide)⟩,
    readAll_corruption_characterization.1 [0, 0, 0, 0]⟩

/-- C6 as stated is false: a frame with a valid length field and a
valid CRC32 checksum whose payload does not parse makes the scan stop,
but with the `store: decode wal entry` error, which wraps only the
decoder's error — not the `CorruptWAL`/`CorruptFrame` corruption
error. Concrete input: the 9-byte file `[0,0,0,1] ++ crc32([99]) ++
[99]`, whose 1-byte payload `[99]` is unparseable. -/
theorem decode_failure_error_counterexample :
    decodePayload [99] = none ∧
    readFrames ([0, 0, 0, 1] ++ putUint32 (checksumIEEE [99]) ++ [99]) =
      .error .decodeFail ∧
    WalReadError.decodeFail ≠ WalReadError.corrupt := by
  refine ⟨by decide, by decide, by decide⟩

/-- C6 (amended): during a WAL scan, a frame whose length and checksum
are valid but whose payload cannot be parsed into a valid entry makes
the scan stop at that frame with the decode error — an error distinct
from the `CorruptWAL` corruption error. -/
theorem decode_failure_stops_scan (p rest : List Nat) (h0 : p ≠ [])
    (hlt : p.length < 4294967296) (hd : decodePayload p = none) :
    readFrames (putUint32 p.length ++ putUint32 (checksumIEEE p) ++
      p ++ rest) = .error .decodeFail := by
  have hpos : p.length ≠ 0 := by
    cases p
    · exact absurd rfl h0
    · simp
  have hcl := checksumIEEE_lt p
  unfold readFrames
  simp only [putUint32, List.cons_append, List.nil_append, List.length_cons]
  rw [readFramesAux_cons8]
  rw [getUint32_putUint32 _ hlt, getUint32_putUint32 _ hcl]
  rw [if_neg hpos]
  rw [if_neg (by simp)]
  rw [List.take_left, List.drop_left]
  rw [if_neg (by simp)]
  rw [hd]

theorem decode_failure_stops_scan_witness :
    (([99] : List Nat) ≠ [] ∧ ([99] : List Nat).length < 4294967296 ∧
      decodePayload [99] = none) ∧
    readFrames (putUint32 ([99] : List Nat).length ++
      putUint32 (checksumIEEE [99]) ++ [99] ++ []) = .error .decodeFail :=
  ⟨⟨by decide, by decide, by decide⟩,
    decode_failure_stops_scan [99] [] (by decide) (by decide) (by decide)⟩

/-- C1: for any sequence of `Set`/`Delete` calls on a Store created
over an empty log (every call with a non-empty key whose record fits
the 32-bit frame length field), followed by `Close` and a fresh `Open`
on the same path, the rebuilt index equals the index obtained by
applying the same sequence directly to an in-memory map with
last-write-wins semantics: recovery after a clean shutdown is
lossless. -/
theorem clean_shutdown_recovery_lossless (os : List StoreOp)
    (h : ∀ o ∈ os, okOp o = true) :
    reopenAfter os = .ok (os.foldl lastWriteWins Index.empty) := by
  have ha := runOps_active os initStore
  have hf := runOps_file os initStore
  have h1 : (runOps initStore os).wal.file = [] := by
    rw [hf.1]; rfl
  have h2 : (runOps initStore os).wal.fileClosed = false := by
    rw [hf.2]; rfl
  have h3 : (runOps initStore os).wal.active = entriesOf os := by
    rw [ha]; rfl
  unfold reopenAfter StoreState.close WALState.close WALState.flushBuffer
  rw [h1, h2, h3]
  simp only [Bool.false_eq_true, if_false, Except.map, List.nil_append]
  unfold storeNew
  rw [readFrames_encodeFrames (entriesOf os) (entriesOf_wf os h)]
  exact congrArg Except.ok (foldl_applyEntry_entriesOf os h Index.empty)

theorem clean_shutdown_recovery_lossless_witness :
    (∀ o ∈ ([.opSet "a" [1], .opDelete "a", .opSet "b" [2]] : List StoreOp),
      okOp o = true) ∧
    reopenAfter [.opSet "a" [1], .opDelete "a", .opSet "b" [2]] =
      .ok (([.opSet "a" [1], .opDelete "a", .opSet "b" [2]] :
        List StoreOp).foldl lastWriteWins Index.empty) :=
  ⟨by decide, clean_shutdown_recovery_lossless _ (by decide)⟩

/-- C5: `Store.Set` and `Store.Delete` called with the empty key fail
with the `InvalidKey` error and leave the state — WAL and index —
completely unchanged: the rejection happens before any append or
index update. -/
theorem empty_key_rejected_without_effect (s : StoreState)
    (v : List Nat) :
    s.set "" v = (.error .invalidKey, s) ∧
    s.delete "" = (.error .invalidKey, s) :=
  ⟨by simp [StoreState.set], by simp [StoreState.delete]⟩

/-- C7: deleting an absent (non-empty) key reports `existed = false`
with a nil error, and after a successful `Set(k, v)` two consecutive
`Delete(k)` calls report `existed = true` then `existed = false`, both
without error. -/
theorem delete_reporting :
    (∀ (s : StoreState) (k : String), k ≠ "" → s.index k = none →
      (s.delete k).1 = .ok false) ∧
    (∀ (s : StoreState) (k : String) (v : List Nat), k ≠ "" →
      ((s.set k v).2.delete k).1 = .ok true ∧
      (((s.set k v).2.delete k).2.delete k).1 = .ok false) := by
  constructor
  · intro s k hk h
    simp [StoreState.delete, hk, h]
  · intro s k v hk
    constructor
    · simp [StoreState.delete, StoreState.set, hk, Index.insert_self]
    · simp [StoreState.delete, StoreState.set, hk, Index.erase_self]

theorem delete_reporting_witness :
    (("a" : String) ≠ "" ∧ initStore.index "a" = none ∧
      (initStore.delete "a").1 = .ok false) ∧
    ((initStore.set "a" [1]).2.delete "a").1 = .ok true ∧
    (((initStore.set "a" [1]).2.delete "a").2.delete "a").1 = .ok false :=
  ⟨⟨by decide, rfl, delete_reporting.1 initStore "a" (by decide) rfl⟩,
    delete_reporting.2 initStore "a" [1] (by decide)⟩

/-- C9: for every non-empty key, `Store.Delete` appends a Delete
record to the WAL unconditionally — whether or not the key is in the
index — so the log grows by that record even for a delete of an
absent key; and replaying such a record onto an index that lacks the
key leaves the index unchanged (the no-op delete is replayed). -/
theorem delete_always_appends (s : StoreState) (k : String)
    (hk : k ≠ "") :
    (s.delete k).2.wal.active = s.wal.active ++ [⟨.delete, k, []⟩] ∧
    ∀ m : Index, m k = none → applyEntry m ⟨.delete, k, []⟩ = m := by
  constructor
  · simp [StoreState.delete, hk, WALState.append]
  · intro m hm
    simp only [applyEntry]
    exact Index.erase_absent m k hm

theorem delete_always_appends_witness :
    (("a" : String) ≠ "" ∧ Index.empty "a" = none) ∧
    (initStore.delete "a").2.wal.active =
      initStore.wal.active ++ [⟨.delete, "a", []⟩] ∧
    applyEntry Index.empty ⟨.delete, "a", []⟩ = Index.empty :=
  ⟨⟨by decide, rfl⟩, (delete_always_appends initStore "a" (by decide)).1,
    (delete_always_appends initStore "a" (by decide)).2 Index.empty rfl⟩

/-- C10: starting from a Store over an empty log, no sequence of
public `Set`/`Delete`/`Get` calls ever puts the empty-string key into
the index — `Get ""` always misses — and this is due solely to the
empty-key validation in `Set`/`Delete`: replay's `applyEntry` itself
performs no key validation and would happily store the empty key. -/
theorem empty_key_never_stored (os : List StoreOp) :
    (runOps initStore os).get "" = none ∧
    ∀ (m : Index) (v : List Nat), applyEntry m ⟨.set, "", v⟩ "" = some v := by
  constructor
  · show (runOps initStore os).index "" = none
    have : ∀ s : StoreState, s.index "" = none →
        (runOps s os).index "" = none := by
      induction os with
      | nil => intro s h; exact h
      | cons o os ih =>
        intro s h
        rw [runOps_cons]
        cases o with
        | opSet k v =>
          by_cases hk : k = ""
          · refine ih _ ?_
            simp [runOp, StoreState.set, hk, h]
          · refine ih _ ?_
            simp only [runOp, StoreState.set, if_neg hk]
            show Index.insert s.index k v "" = none
            rw [Index.insert_ne s.index k "" v (fun he => hk he.symm)]
            exact h
        | opDelete k =>
          by_cases hk : k = ""
          · refine ih _ ?_
            simp [runOp, StoreState.delete, hk, h]
          · refine ih _ ?_
            simp only [runOp, StoreState.delete, if_neg hk]
            show Index.erase s.index k "" = none
            rw [Index.erase_ne s.index k "" (fun he => hk he.symm)]
            exact h
        | opGet k => exact ih s h
    exact this initStore rfl
  · intro m v
    simp [applyEntry, Index.insert_self]

/-- C4 evidence: the code has no Closed state at all. Even after
`Close()` has returned successfully, `Store.Set` still returns a nil
error and updates the in-memory index (the entry is appended to the
buffer of a WAL whose flusher is stopped and whose file is closed, so
it is silently lost), and `Store.Delete` likewise still reports
success — neither fails with a Closed-state error. -/
theorem set_after_close_still_succeeds (s s1 : StoreState) (k : String)
    (v : List Nat) (hk : k ≠ "") (_hc : s.close = .ok s1) :
    (s1.set k v).1 = .ok () ∧ (s1.set k v).2.index k = some v ∧
    (s1.delete k).1 = .ok ((s1.index k).isSome) := by
  refine ⟨?_, ?_, ?_⟩ <;>
    simp [StoreState.set, StoreState.delete, hk, Index.insert_self]

theorem set_after_close_still_succeeds_witness :
    (("a" : String) ≠ "") ∧
    initStore.close = .ok ⟨⟨[], [], true⟩, initStore.index⟩ ∧
    (((⟨⟨[], [], true⟩, initStore.index⟩ : StoreState).set "a" [7]).1 =
      .ok () ∧
     ((⟨⟨[], [], true⟩, initStore.index⟩ : StoreState).set "a" [7]).2.index
       "a" = some [7]) :=
  ⟨by decide, rfl,
    (set_after_close_still_succeeds initStore _ "a" [7] (by decide) rfl).1,
    (set_after_close_still_succeeds initStore _ "a" [7] (by decide) rfl).2.1⟩

/-- `Get` on a present key: clone the stored buffer, return the fresh
pointer. -/
theorem HStore.get_hit (s : HStore) (k : String) (q : Nat)
    (hq : s.index k = some q) :
    s.get k = (some (s.heap.alloc (s.heap.read q)).2,
      { s with heap := (s.heap.alloc (s.heap.read q)).1 }) := by
  simp only [HStore.get, hq]

/-- C8: both `Get` and `Set` hand the index only defensive copies.
Mutating the buffer a `Get(k)` returned does not change what a
subsequent `Get(k)` returns, and mutating the caller's value buffer
after `Set(k, v)` returned does not change the stored value. -/
theorem copy_isolation :
    (∀ (s : HStore) (k : String) (r : Nat) (s1 : HStore),
      s.wf → s.get k = (some r, s1) → ∀ bs : List Nat,
      ∃ (r2 : Nat) (s3 : HStore),
        (HStore.mk (s1.heap.write r bs) s1.index).get k = (some r2, s3) ∧
        s3.heap.read r2 = s1.heap.read r) ∧
    (∀ (s : HStore) (k : String) (p : Nat) (s1 : HStore),
      s.wf → p < s.heap.length → s.set k p = .ok s1 → ∀ bs : List Nat,
      ∃ (r2 : Nat) (s3 : HStore),
        (HStore.mk (s1.heap.write p bs) s1.index).get k = (some r2, s3) ∧
        s3.heap.read r2 = s.heap.read p) := by
  constructor
  · intro s k r s1 hwf hget bs
    cases hq : s.index k with
    | none =>
      simp only [HStore.get, hq, Prod.mk.injEq] at hget
      exact absurd hget.1 (by simp)
    | some q =>
      rw [HStore.get_hit s k q hq, Prod.mk.injEq] at hget
      obtain ⟨hr, hs1⟩ := hget
      have hr' : (s.heap.alloc (s.heap.read q)).2 = r := Option.some.inj hr
      have hql : q < s.heap.length := hwf k q hq
      have hheap : s1.heap = (s.heap.alloc (s.heap.read q)).1 := by
        rw [← hs1]
      have hidx : s1.index k = some q := by
        rw [← hs1]; exact hq
      rw [HStore.get_hit (HStore.mk (s1.heap.write r bs) s1.index) k q hidx]
      refine ⟨_, _, rfl, ?_⟩
      simp only [Heap.alloc] at hr' hheap ⊢
      rw [Heap.read_alloc]
      rw [Heap.read_write_ne _ _ _ _ (by omega)]
      rw [hheap]
      rw [Heap.read_append_lt _ _ _ hql]
      rw [← hr']
      rw [Heap.read_alloc]
  · intro s k p s1 hwf hp hset bs
    by_cases hk : k = ""
    · rw [HStore.set, if_pos hk] at hset
      exact absurd hset (by simp)
    rw [HStore.set, if_neg hk] at hset
    obtain ⟨hheap, hidx⟩ : s1.heap = (s.heap.alloc (s.heap.read p)).1 ∧
        s1.index k = some (s.heap.alloc (s.heap.read p)).2 := by
      rw [← Except.ok.inj hset]
      exact ⟨rfl, by simp⟩
    rw [HStore.get_hit (HStore.mk (s1.heap.write p bs) s1.index) k _ hidx]
    refine ⟨_, _, rfl, ?_⟩
    simp only [Heap.alloc] at hheap ⊢
    rw [Heap.read_alloc]
    rw [Heap.read_write_ne _ _ _ _ (by omega)]
    rw [hheap]
    rw [Heap.read_alloc]

/-- Index function of the concrete two-buffer store used to witness
copy isolation. -/
def hIdx : String → Option Nat := fun k => if k = "a" then some 0 else none

theorem copy_isolation_witness :
    (HStore.wf ⟨[[1, 2]], hIdx⟩ ∧
      HStore.get ⟨[[1, 2]], hIdx⟩ "a" = (some 1, ⟨[[1, 2], [1, 2]], hIdx⟩) ∧
      (0 : Nat) < List.length [[1, 2]] ∧
      HStore.set ⟨[[1, 2]], hIdx⟩ "b" 0 =
        .ok ⟨[[1, 2], [1, 2]],
          fun q => if q = "b" then some 1 else hIdx q⟩) ∧
    (∃ r2 s3,
      (HStore.mk (Heap.write [[1, 2], [1, 2]] 1 [9]) hIdx).get "a" =
        (some r2, s3) ∧
      s3.heap.read r2 = Heap.read [[1, 2], [1, 2]] 1) ∧
    (∃ r2 s3,
      (HStore.mk (Heap.write [[1, 2], [1, 2]] 0 [9])
        (fun q => if q = "b" then some 1 else hIdx q)).get "b" =
          (some r2, s3) ∧
      s3.heap.read r2 = Heap.read [[1, 2]] 0) := by
  have wfpf : HStore.wf ⟨[[1, 2]], hIdx⟩ := by
    intro k q h
    simp only [hIdx] at h
    by_cases hk : k = "a"
    · rw [if_pos hk] at h
      injection h with h2
      rw [← h2]
      decide
    · rw [if_neg hk] at h
      cases h
  exact ⟨⟨wfpf, rfl, by decide, rfl⟩,
    copy_isolation.1 _ "a" 1 _ wfpf rfl [9],
    copy_isolation.2 _ "b" 0 _ wfpf (by decide) rfl [9]⟩
